import Mathlib

/-!
# Bookshell: verification of the library reconciliation engine

Shallow embedding of the reconciliation core of the `bookshell` repository:
the catalog entry model (`src/bookshell/core/models.py`), the merge / diff
engine (`src/bookshell/services/sync_service.py`), the CLI merge and
push/pull orchestration (`src/bookshell/main.py`) and the Drive folder
logic (`src/bookshell/core/drive_logic.py`).

Python dictionaries keyed by book name are modelled as association lists
(insertion ordered, updated in place), Python string truthiness is modelled
explicitly, and the interactive prompt answers and collaborator results
(upload / download outcomes) are passed in as explicit parameters.
-/

namespace Bookshell

/-- Python truthiness of an optional string: `None` and `""` are falsy.
Used wherever the source writes `if x:` / `x and y` on optional strings. -/
def pyTruthy : Option String → Bool
  | none => false
  | some s => !s.isEmpty

/-- `BookStatus` enumeration from `core/models.py`. -/
inductive BookStatus where
  | new
  | reading
  | finished
deriving DecidableEq, Repr

/-- Python's `str.lower()`, modelled as a character-wise lowercase map
(structurally recursive so that it evaluates inside the kernel). -/
def strLower (s : String) : String :=
  ⟨s.data.map Char.toLower⟩

/-- `BookStatus.from_string` from `core/models.py`: `cls(value.lower())`
with fallback `NEW` on `ValueError`. -/
def BookStatus.fromString (value : String) : BookStatus :=
  if strLower value = "reading" then .reading
  else if strLower value = "finished" then .finished
  else if strLower value = "new" then .new
  else .new

/-- The `Book` dataclass from `core/models.py`. -/
structure Book where
  name : String
  size : Nat := 0
  category : Option String := none
  drive_id : Option String := none
  local_path : Option String := none
  status : BookStatus := .new
  description : Option String := none
deriving DecidableEq, Repr

/-- `Book.is_synced` from `core/models.py`: `bool(drive_id and local_path)`. -/
def Book.is_synced (b : Book) : Bool :=
  pyTruthy b.drive_id && pyTruthy b.local_path

/-- `Book.is_local_only` from `core/models.py`:
`bool(local_path and not drive_id)`. -/
def Book.is_local_only (b : Book) : Bool :=
  pyTruthy b.local_path && !pyTruthy b.drive_id

/-- `Book.is_drive_only` from `core/models.py`:
`bool(drive_id and not local_path)`. -/
def Book.is_drive_only (b : Book) : Bool :=
  pyTruthy b.drive_id && !pyTruthy b.local_path

section AssocDict

variable {α : Type} (key : α → String)

/-- Lookup in an insertion-ordered dictionary modelled as a list:
`library[n]` when present, `None` otherwise. -/
def lookupKey (lib : List α) (n : String) : Option α :=
  lib.find? (fun x => key x = n)

/-- One `library[key] = ...` style dictionary write: if the key is present the
existing value is updated in place (by `upd old new`), otherwise the new
value is appended.  This is the Python `dict` update used by both merge
loops in `sync_service.py` and `main.py`. -/
def pyUpsert (upd : α → α → α) (lib : List α) (b : α) : List α :=
  if lib.any (fun x => key x = key b) then
    lib.map (fun x => if key x = key b then upd x b else x)
  else
    lib ++ [b]

end AssocDict

/-- The update applied in `SyncService.get_library` when a Drive book's name
is already in the library (`sync_service.py` lines 26-32):
`existing.drive_id = b.drive_id; existing.status = b.status;
if not existing.category: existing.category = b.category`. -/
def updateFromDrive (existing b : Book) : Book :=
  { existing with
    drive_id := b.drive_id
    status := b.status
    category := if pyTruthy existing.category then existing.category else b.category }

/-- Lexicographic comparison of strings by code point, as Python's `<=` on
`str` (used by `sorted(..., key=lambda x: x.name)`).  Structurally recursive
so that it evaluates inside the kernel; `charListLe_iff` below shows it
agrees with the canonical order on `String`. -/
def charListLe : List Char → List Char → Bool
  | [], _ => true
  | _ :: _, [] => false
  | a :: as, b :: bs =>
    if a < b then true else if b < a then false else charListLe as bs

/-- The sort key of `sorted(library.values(), key=lambda x: x.name)`. -/
def bookLe (a b : Book) : Bool :=
  charListLe a.name.data b.name.data

/-- The dictionary built by the two merge loops of `SyncService.get_library`
(`sync_service.py` lines 18-34), before the final `sorted(...)`:
`library[b.name] = b` for each local book, then add-or-update for each
Drive book. -/
def mergedPre (local_books drive_books : List Book) : List Book :=
  let lib := local_books.foldl (pyUpsert Book.name (fun _ b => b)) []
  drive_books.foldl (pyUpsert Book.name updateFromDrive) lib

/-- `SyncService.get_library` (`sync_service.py` lines 11-36): seed the
dictionary from the local books, then add-or-update with the Drive books,
and return the values sorted by name (Python's `sorted` is a stable sort;
modelled by the stable `insertionSort`). -/
def get_library (local_books drive_books : List Book) : List Book :=
  (mergedPre local_books drive_books).insertionSort (fun a b => bookLe a b = true)

/-- `SyncService.get_diff` (`sync_service.py` lines 38-47):
`(to_upload, to_download)` filtered from the merged library. -/
def get_diff (local_books drive_books : List Book) : List Book × List Book :=
  let library := get_library local_books drive_books
  (library.filter Book.is_local_only, library.filter Book.is_drive_only)

/-! ### The computable comparison agrees with the canonical string order -/

theorem charListLe_iff :
    ∀ l m : List Char, charListLe l m = true ↔ ¬ List.Lex (· < ·) m l
  | [], [] => iff_of_true rfl (fun h => by cases h)
  | [], _ :: _ => iff_of_true rfl (fun h => by cases h)
  | _ :: _, [] => iff_of_false (by simp [charListLe]) (fun h => h List.Lex.nil)
  | a :: as, b :: bs => by
    show (if a < b then true else if b < a then false else charListLe as bs) = true ↔ _
    by_cases hab : a < b
    · rw [if_pos hab]
      refine iff_of_true rfl (fun h => ?_)
      cases h with
      | cons h' => exact lt_irrefl a hab
      | rel h' => exact lt_asymm hab h'
    · by_cases hba : b < a
      · rw [if_neg hab, if_pos hba]
        exact iff_of_false (by simp) (fun h => h (List.Lex.rel hba))
      · have hctx : a = b := le_antisymm (not_lt.mp hba) (not_lt.mp hab)
        subst hctx
        rw [if_neg hab, if_neg hba]
        rw [charListLe_iff as bs]
        constructor
        · intro h h'
          cases h' with
          | cons h'' => exact h h''
          | rel h'' => exact lt_irrefl a h''
        · intro h h'
          exact h (List.Lex.cons h')

theorem bookLe_iff (a b : Book) : bookLe a b = true ↔ a.name ≤ b.name := by
  rw [String.le_iff_toList_le]
  have hlt : ∀ l m : List Char, l < m ↔ List.Lex (· < ·) l m := fun _ _ => Iff.rfl
  rw [show (String.toList (Book.name a) ≤ String.toList (Book.name b)) ↔
      ¬ String.toList (Book.name b) < String.toList (Book.name a) from not_lt.symm]
  rw [hlt]
  exact charListLe_iff a.name.data b.name.data

/-! ### Generic lemmas about the dictionary operations -/

section DictLemmas

variable {α : Type} {key : α → String} {upd : α → α → α}

/-- One `mergeStep` of the add-or-update fold, seen from the point of view of
a single key: update the accumulated entry if present, insert otherwise. -/
def mergeStep (upd : α → α → α) (acc : Option α) (b : α) : Option α :=
  some (match acc with | some x => upd x b | none => b)

theorem lookupKey_append_singleton (lib : List α) (b : α) (n : String) :
    lookupKey key (lib ++ [b]) n =
      (lookupKey key lib n).or (if key b = n then some b else none) := by
  simp only [lookupKey, List.find?_append]
  congr 1
  by_cases h : key b = n <;> simp [List.find?, h]

theorem lookupKey_eq_none_iff (lib : List α) (n : String) :
    lookupKey key lib n = none ↔ ∀ x ∈ lib, key x ≠ n := by
  simp [lookupKey, List.find?_eq_none]

theorem any_key_iff (lib : List α) (n : String) :
    lib.any (fun x => key x = n) = true ↔ ∃ x ∈ lib, key x = n := by
  simp [List.any_eq_true]

theorem lookupKey_map_update
    (hupd : ∀ x b, key x = key b → key (upd x b) = key x) (b : α) (n : String) :
    ∀ lib : List α,
      lookupKey key (lib.map (fun x => if key x = key b then upd x b else x)) n =
        if key b = n then (lookupKey key lib n).map (fun x => upd x b)
        else lookupKey key lib n
  | [] => by by_cases h : key b = n <;> simp [lookupKey, h]
  | a :: lib => by
    have ih := lookupKey_map_update hupd b n lib
    simp only [lookupKey, List.map_cons] at ih ⊢
    by_cases hk : key a = key b
    · rw [if_pos hk]
      have hkey : key (upd a b) = key a := hupd a b hk
      by_cases hn : key b = n
      · have han : key a = n := hk.trans hn
        rw [List.find?_cons_of_pos _ (by simp [hkey, han]), if_pos hn,
            List.find?_cons_of_pos _ (by simp [han])]
        rfl
      · have han : ¬ key a = n := fun h => hn (hk.symm.trans h)
        rw [List.find?_cons_of_neg _ (by simp [hkey, han]), ih, if_neg hn, if_neg hn,
            List.find?_cons_of_neg _ (by simp [han])]
    · rw [if_neg hk]
      by_cases ha : key a = n
      · have hn : ¬ key b = n := fun h => hk (ha.trans h.symm)
        rw [List.find?_cons_of_pos _ (by simp [ha]), if_neg hn,
            List.find?_cons_of_pos _ (by simp [ha])]
      · rw [List.find?_cons_of_neg _ (by simp [ha]), ih,
            List.find?_cons_of_neg _ (by simp [ha])]

theorem lookupKey_pyUpsert
    (hupd : ∀ x b, key x = key b → key (upd x b) = key x)
    (lib : List α) (b : α) (n : String) :
    lookupKey key (pyUpsert key upd lib b) n =
      if key b = n then
        match lookupKey key lib n with
        | some x => some (upd x b)
        | none => some b
      else lookupKey key lib n := by
  by_cases hany : lib.any (fun x => key x = key b) = true
  · simp only [pyUpsert]
    rw [if_pos hany, lookupKey_map_update hupd]
    by_cases hn : key b = n
    · rw [if_pos hn, if_pos hn]
      cases hlk : lookupKey key lib n with
      | none =>
        obtain ⟨x, hx, hkx⟩ := (any_key_iff lib (key b)).mp hany
        exact absurd (hkx.trans hn) ((lookupKey_eq_none_iff lib n).mp hlk x hx)
      | some x => rfl
    · rw [if_neg hn, if_neg hn]
  · simp only [pyUpsert]
    rw [if_neg hany, lookupKey_append_singleton]
    by_cases hn : key b = n
    · rw [if_pos hn, if_pos hn]
      have hnone : lookupKey key lib n = none :=
        (lookupKey_eq_none_iff lib n).mpr (fun x hx hkey =>
          hany ((any_key_iff lib (key b)).mpr ⟨x, hx, hkey.trans hn.symm⟩))
      rw [hnone]
      rfl
    · rw [if_neg hn, if_neg hn]
      exact Option.or_none

theorem keys_pyUpsert
    (hupd : ∀ x b, key x = key b → key (upd x b) = key x) (lib : List α) (b : α) :
    (pyUpsert key upd lib b).map key =
      if lib.any (fun x => key x = key b) then lib.map key
      else lib.map key ++ [key b] := by
  by_cases hany : lib.any (fun x => key x = key b) = true
  · simp only [pyUpsert]
    rw [if_pos hany, if_pos hany, List.map_map]
    apply List.map_congr_left
    intro x _
    by_cases hk : key x = key b
    · simp only [Function.comp, if_pos hk]
      exact hupd x b hk
    · simp only [Function.comp, if_neg hk]
  · simp only [pyUpsert]
    rw [if_neg hany, if_neg hany, List.map_append]
    rfl

theorem nodupKeys_pyUpsert
    (hupd : ∀ x b, key x = key b → key (upd x b) = key x) (lib : List α) (b : α)
    (h : (lib.map key).Nodup) : ((pyUpsert key upd lib b).map key).Nodup := by
  rw [keys_pyUpsert hupd]
  by_cases hany : lib.any (fun x => key x = key b) = true
  · rwa [if_pos hany]
  · rw [if_neg hany]
    have hnotmem : key b ∉ lib.map key := by
      intro hmem
      obtain ⟨x, hx, hkx⟩ := List.mem_map.mp hmem
      exact hany ((any_key_iff lib (key b)).mpr ⟨x, hx, hkx⟩)
    simp [List.nodup_append, h, hnotmem]

theorem nodupKeys_foldl
    (hupd : ∀ x b, key x = key b → key (upd x b) = key x) :
    ∀ (books : List α) (lib : List α), (lib.map key).Nodup →
      ((books.foldl (pyUpsert key upd) lib).map key).Nodup
  | [], _, h => h
  | b :: books, lib, h =>
    nodupKeys_foldl hupd books (pyUpsert key upd lib b) (nodupKeys_pyUpsert hupd lib b h)

theorem lookupKey_foldl
    (hupd : ∀ x b, key x = key b → key (upd x b) = key x) :
    ∀ (books : List α) (lib : List α) (n : String),
      lookupKey key (books.foldl (pyUpsert key upd) lib) n =
        (books.filter (fun b => key b = n)).foldl (mergeStep upd) (lookupKey key lib n)
  | [], _, _ => rfl
  | b :: books, lib, n => by
    rw [List.foldl_cons, lookupKey_foldl hupd books _ n, lookupKey_pyUpsert hupd]
    by_cases hn : key b = n
    · rw [if_pos hn, List.filter_cons_of_pos (by simp [hn]), List.foldl_cons]
      congr 1
      cases lookupKey key lib n <;> rfl
    · rw [if_neg hn, List.filter_cons_of_neg (by simp [hn])]

theorem lookupKey_of_mem {lib : List α} {x : α}
    (h : (lib.map key).Nodup) (hx : x ∈ lib) :
    lookupKey key lib (key x) = some x := by
  induction lib with
  | nil => cases hx
  | cons a l ih =>
    simp only [List.map_cons, List.nodup_cons] at h
    rcases List.mem_cons.mp hx with rfl | hxl
    · exact List.find?_cons_of_pos _ (by simp)
    · have hk : ¬ key a = key x := by
        intro he
        exact h.1 (he ▸ List.mem_map_of_mem key hxl)
      simp only [lookupKey]
      rw [List.find?_cons_of_neg _ (by simp [hk])]
      exact ih h.2 hxl

theorem lookupKey_eq_some {lib : List α} {x : α} {n : String}
    (h : lookupKey key lib n = some x) : x ∈ lib ∧ key x = n := by
  refine ⟨List.mem_of_find?_eq_some h, ?_⟩
  have := List.find?_some h
  simpa using this

end DictLemmas

/-! ### Corollaries specialised to the book merges -/

theorem name_replace_step :
    ∀ x b : Book, x.name = b.name → ((fun (_ b : Book) => b) x b).name = x.name :=
  fun _ _ h => h.symm

theorem name_updateFromDrive :
    ∀ x b : Book, x.name = b.name → (updateFromDrive x b).name = x.name :=
  fun _ _ _ => rfl

theorem lookup_mergedPre (local_books drive_books : List Book) (n : String) :
    lookupKey Book.name (mergedPre local_books drive_books) n =
      (drive_books.filter (fun b => b.name = n)).foldl (mergeStep updateFromDrive)
        ((local_books.filter (fun b => b.name = n)).foldl
          (mergeStep (fun _ b => b)) none) := by
  simp only [mergedPre]
  rw [lookupKey_foldl name_updateFromDrive, lookupKey_foldl name_replace_step]
  rfl

theorem nodup_names_mergedPre (local_books drive_books : List Book) :
    ((mergedPre local_books drive_books).map Book.name).Nodup := by
  simp only [mergedPre]
  exact nodupKeys_foldl name_updateFromDrive _ _
    (nodupKeys_foldl name_replace_step _ _ List.nodup_nil)

instance : IsTotal Book (fun a b => bookLe a b = true) :=
  ⟨fun a b => by
    rw [bookLe_iff, bookLe_iff]
    exact le_total a.name b.name⟩

instance : IsTrans Book (fun a b => bookLe a b = true) :=
  ⟨fun a b c hab hbc => by
    rw [bookLe_iff] at hab hbc ⊢
    exact le_trans hab hbc⟩

theorem get_library_perm (local_books drive_books : List Book) :
    List.Perm (get_library local_books drive_books) (mergedPre local_books drive_books) :=
  List.perm_insertionSort _ _

theorem mem_get_library {x : Book} (local_books drive_books : List Book) :
    x ∈ get_library local_books drive_books ↔ x ∈ mergedPre local_books drive_books :=
  (get_library_perm local_books drive_books).mem_iff

theorem sorted_get_library (local_books drive_books : List Book) :
    (get_library local_books drive_books).Pairwise (fun a b => a.name ≤ b.name) := by
  have h := List.sorted_insertionSort (fun a b : Book => bookLe a b = true)
    (mergedPre local_books drive_books)
  exact h.imp (fun hab => (bookLe_iff _ _).mp hab)

theorem nodup_names_get_library (local_books drive_books : List Book) :
    ((get_library local_books drive_books).map Book.name).Nodup :=
  ((get_library_perm local_books drive_books).map Book.name).nodup_iff.mpr
    (nodup_names_mergedPre local_books drive_books)

theorem lookup_get_library {x : Book} (local_books drive_books : List Book)
    (hx : x ∈ get_library local_books drive_books) :
    lookupKey Book.name (mergedPre local_books drive_books) x.name = some x :=
  lookupKey_of_mem (nodup_names_mergedPre local_books drive_books)
    ((mem_get_library local_books drive_books).mp hx)

/-- Stepping the drive merge always takes `drive_id` and `status` from the
incoming drive book. -/
theorem mergeStep_drive_fields (acc : Option Book) (b : Book) :
    ∃ v, mergeStep updateFromDrive acc b = some v ∧
      v.drive_id = b.drive_id ∧ v.status = b.status := by
  cases acc with
  | none => exact ⟨b, rfl, rfl, rfl⟩
  | some x => exact ⟨updateFromDrive x b, rfl, rfl, rfl⟩

/-- Folding the drive merge over a nonempty list: `drive_id` and `status`
come from the last drive book of the list. -/
theorem foldl_mergeStep_last (l : List Book) (r : Book) (init : Option Book) :
    ∃ v, (l ++ [r]).foldl (mergeStep updateFromDrive) init = some v ∧
      v.drive_id = r.drive_id ∧ v.status = r.status := by
  rw [List.foldl_append]
  exact mergeStep_drive_fields _ r

/-- Folding the drive merge from an existing entry preserves `local_path`. -/
theorem foldl_mergeStep_local_path :
    ∀ (l : List Book) (x : Book),
      ∃ v, l.foldl (mergeStep updateFromDrive) (some x) = some v ∧
        v.local_path = x.local_path
  | [], x => ⟨x, rfl, rfl⟩
  | b :: l, x => by
    obtain ⟨v, hv, hp⟩ := foldl_mergeStep_local_path l (updateFromDrive x b)
    exact ⟨v, hv, hp⟩

/-- The local seeding fold keeps the last local book of each name. -/
theorem foldl_replaceStep_last (l : List Book) (r : Book) (init : Option Book) :
    (l ++ [r]).foldl (mergeStep (fun _ b => b)) init = some r := by
  rw [List.foldl_append]
  cases l.foldl (mergeStep (fun _ b => b)) init <;> rfl

/-- Folding the drive merge with a nonempty filtered list always produces an
entry. -/
theorem foldl_mergeStep_some (l : List Book) (b : Book) (init : Option Book) :
    ∃ v, (b :: l).foldl (mergeStep updateFromDrive) init = some v := by
  rw [List.foldl_cons]
  induction l generalizing init b with
  | nil => exact ⟨_, rfl⟩
  | cons c l ih =>
    rw [List.foldl_cons]
    obtain ⟨v, hv⟩ := ih c (mergeStep updateFromDrive init b)
    exact ⟨v, by rw [← List.foldl_cons] at hv; simpa using hv⟩

section DictLemmasMore

variable {α : Type} {key : α → String} {upd : α → α → α}

theorem filter_key_eq_singleton {l : List α} {x : α}
    (hnd : (l.map key).Nodup) (hx : x ∈ l) :
    l.filter (fun b => key b = key x) = [x] := by
  induction l with
  | nil => cases hx
  | cons a l ih =>
    simp only [List.map_cons, List.nodup_cons] at hnd
    rcases List.mem_cons.mp hx with heq | hxl
    · subst heq
      rw [List.filter_cons_of_pos (by simp)]
      have : l.filter (fun b => key b = key x) = [] := by
        rw [List.filter_eq_nil_iff]
        intro b hb
        simp only [decide_eq_true_eq]
        intro he
        exact hnd.1 (he ▸ List.mem_map_of_mem key hb)
      rw [this]
    · have hk : ¬ key a = key x := by
        intro he
        exact hnd.1 (he ▸ List.mem_map_of_mem key hxl)
      rw [List.filter_cons_of_neg (by simp [hk])]
      exact ih hnd.2 hxl

theorem mem_pyUpsert {lib : List α} {b y : α}
    (h : y ∈ pyUpsert key upd lib b) :
    y ∈ lib ∨ y = b ∨ ∃ x ∈ lib, y = upd x b := by
  by_cases hany : lib.any (fun x => key x = key b) = true
  · simp only [pyUpsert] at h
    rw [if_pos hany] at h
    obtain ⟨x, hx, hxy⟩ := List.mem_map.mp h
    by_cases hk : key x = key b
    · rw [if_pos hk] at hxy
      exact Or.inr (Or.inr ⟨x, hx, hxy.symm⟩)
    · rw [if_neg hk] at hxy
      exact Or.inl (hxy ▸ hx)
  · simp only [pyUpsert] at h
    rw [if_neg hany] at h
    rcases List.mem_append.mp h with h' | h'
    · exact Or.inl h'
    · exact Or.inr (Or.inl (List.mem_singleton.mp h'))

theorem foldl_pyUpsert_inv (Q Qb : α → Prop)
    (hQb : ∀ b, Qb b → Q b) (hupdQ : ∀ x b, Q x → Qb b → Q (upd x b)) :
    ∀ (books : List α) (lib : List α), (∀ x ∈ lib, Q x) → (∀ b ∈ books, Qb b) →
      ∀ y ∈ books.foldl (pyUpsert key upd) lib, Q y
  | [], _, hlib, _, y, hy => hlib y hy
  | b :: books, lib, hlib, hbooks, y, hy => by
    refine foldl_pyUpsert_inv Q Qb hQb hupdQ books (pyUpsert key upd lib b) ?_
      (fun c hc => hbooks c (List.mem_cons_of_mem b hc)) y hy
    intro x hx
    rcases mem_pyUpsert hx with h' | h' | ⟨z, hz, h'⟩
    · exact hlib x h'
    · exact h' ▸ hQb b (hbooks b (List.mem_cons_self b books))
    · exact h' ▸ hupdQ z b (hlib z hz) (hbooks b (List.mem_cons_self b books))

end DictLemmasMore

/-! ## Claims -/

/-- **C1.** `merge(localEntries, remoteEntries)` seeds the catalog from the
local entries keyed by name; every remote entry whose name is already present
updates that entry's `remoteId` and `status` and fills `category` from the
remote side only when the local entry had no category (local category wins
when both are present); every remote entry with a fresh name is inserted
built purely from remote fields; the output is the sequence of entries
sorted by name, and no input entry's name is ever absent from the output.
(Stated for listings with distinct names on each side, as produced by the
listers, and local categories that are never the empty string.) -/
theorem C1_merge_seeds_updates_sorts (local_books drive_books : List Book)
    (hl : (local_books.map Book.name).Nodup)
    (hd : (drive_books.map Book.name).Nodup)
    (hc : ∀ b ∈ local_books, b.category ≠ some "") :
    ((get_library local_books drive_books).Pairwise (fun a b => a.name ≤ b.name))
    ∧ (∀ x ∈ local_books, ∃ e ∈ get_library local_books drive_books, e.name = x.name)
    ∧ (∀ r ∈ drive_books, ∃ e ∈ get_library local_books drive_books, e.name = r.name)
    ∧ (∀ x ∈ local_books, ∀ r ∈ drive_books, r.name = x.name →
        { x with
          drive_id := r.drive_id
          status := r.status
          category := (if x.category.isNone then r.category else x.category) } ∈
          get_library local_books drive_books)
    ∧ (∀ x ∈ local_books, (∀ r ∈ drive_books, r.name ≠ x.name) →
        x ∈ get_library local_books drive_books)
    ∧ (∀ r ∈ drive_books, (∀ x ∈ local_books, x.name ≠ r.name) →
        r ∈ get_library local_books drive_books) := by
  have hmem : ∀ {v : Book} {n : String},
      lookupKey Book.name (mergedPre local_books drive_books) n = some v →
      v ∈ get_library local_books drive_books := fun h =>
    (mem_get_library local_books drive_books).mpr (lookupKey_eq_some h).1
  refine ⟨sorted_get_library local_books drive_books, ?_, ?_, ?_, ?_, ?_⟩
  · -- every local name is present in the output
    intro x hx
    have hlook := lookup_mergedPre local_books drive_books x.name
    rw [filter_key_eq_singleton hl hx] at hlook
    cases hdl : drive_books.filter (fun b => b.name = x.name) with
    | nil =>
      rw [hdl] at hlook
      exact ⟨x, hmem hlook, rfl⟩
    | cons b l =>
      rw [hdl] at hlook
      obtain ⟨v, hv⟩ := foldl_mergeStep_some l b ([x].foldl (mergeStep (fun _ b => b)) none)
      rw [hv] at hlook
      exact ⟨v, hmem hlook, (lookupKey_eq_some hlook).2⟩
  · -- every remote name is present in the output
    intro r hr
    have hlook := lookup_mergedPre local_books drive_books r.name
    rw [filter_key_eq_singleton hd hr] at hlook
    obtain ⟨v, hv, _, _⟩ := mergeStep_drive_fields
      ((local_books.filter (fun b => b.name = r.name)).foldl (mergeStep (fun _ b => b)) none) r
    rw [show ∀ acc, ([r].foldl (mergeStep updateFromDrive) acc) =
          mergeStep updateFromDrive acc r from fun _ => rfl, hv] at hlook
    exact ⟨v, hmem hlook, (lookupKey_eq_some hlook).2⟩
  · -- names on both sides: remote contributes identity and status,
    -- category filled from remote only when local had none
    intro x hx r hr hrx
    have hlook := lookup_mergedPre local_books drive_books x.name
    rw [filter_key_eq_singleton hl hx] at hlook
    rw [← hrx] at hlook
    rw [filter_key_eq_singleton hd hr] at hlook
    have hupd : lookupKey Book.name (mergedPre local_books drive_books) r.name =
        some (updateFromDrive x r) := hlook
    have heq : updateFromDrive x r =
        { x with
          drive_id := r.drive_id
          status := r.status
          category := (if x.category.isNone then r.category else x.category) } := by
      cases hxc : x.category with
      | none => simp [updateFromDrive, pyTruthy, hxc]
      | some s =>
        have hs : ¬ s.isEmpty = true := by
          intro he
          exact hc x hx (hxc.trans (by rw [(String.isEmpty_iff s).mp he]))
        simp [updateFromDrive, pyTruthy, hxc, hs]
    exact heq ▸ hmem hupd
  · -- local-only entries are kept verbatim
    intro x hx hno
    have hlook := lookup_mergedPre local_books drive_books x.name
    rw [filter_key_eq_singleton hl hx,
        List.filter_eq_nil_iff.mpr (fun r hr => by simpa using hno r hr)] at hlook
    exact hmem hlook
  · -- remote-only entries are inserted verbatim
    intro r hr hno
    have hlook := lookup_mergedPre local_books drive_books r.name
    rw [filter_key_eq_singleton hd hr,
        List.filter_eq_nil_iff.mpr (fun x hx => by simpa using hno x hx)] at hlook
    exact hmem hlook

/-- Witness for C1 at a concrete input: merging a local `a.pdf` in category
`math` with a remote `a.pdf` (id `X1`, status reading, category `general`)
keeps the local category, takes the remote identity and status. -/
theorem C1_merge_seeds_updates_sorts_witness :
    ({ name := "a.pdf", category := some "math", drive_id := some "X1",
       local_path := some "/r/math/a.pdf", status := BookStatus.reading : Book } ∈
      get_library
        [{ name := "a.pdf", category := some "math", local_path := some "/r/math/a.pdf" },
         { name := "b.pdf", local_path := some "/r/b.pdf" }]
        [{ name := "a.pdf", drive_id := some "X1", status := BookStatus.reading,
           category := some "general" },
         { name := "c.pdf", drive_id := some "X3" }]) := by
  have h := (C1_merge_seeds_updates_sorts
      [{ name := "a.pdf", category := some "math", local_path := some "/r/math/a.pdf" },
       { name := "b.pdf", local_path := some "/r/b.pdf" }]
      [{ name := "a.pdf", drive_id := some "X1", status := BookStatus.reading,
         category := some "general" },
       { name := "c.pdf", drive_id := some "X3" }]
      (by decide) (by decide) (by decide)).2.2.2.1
      { name := "a.pdf", category := some "math", local_path := some "/r/math/a.pdf" }
      (by decide)
      { name := "a.pdf", drive_id := some "X1", status := BookStatus.reading,
        category := some "general" }
      (by decide) rfl
  exact h

/-! ### Truthiness helpers and the sync-state trichotomy -/

theorem pyTruthy_isSome {o : Option String} (h : pyTruthy o = true) :
    o.isSome = true := by
  cases o with
  | none => simp [pyTruthy] at h
  | some s => rfl

theorem pyTruthy_ne_empty {o : Option String} (h : pyTruthy o = true) :
    o ≠ some "" := by
  intro he
  subst he
  simp [pyTruthy, String.isEmpty] at h

theorem isSome_pyTruthy {o : Option String} (h : o.isSome = true)
    (hne : o ≠ some "") : pyTruthy o = true := by
  cases o with
  | none => simp at h
  | some s =>
    have hE : s.isEmpty = false := by
      cases hcase : s.isEmpty with
      | false => rfl
      | true => exact absurd (by rw [(String.isEmpty_iff s).mp hcase]) hne
    simp [pyTruthy, hE]

theorem trichotomy_of_present (e : Book)
    (h : pyTruthy e.local_path = true ∨ pyTruthy e.drive_id = true) :
    (e.is_synced = true ∧ e.is_local_only = false ∧ e.is_drive_only = false)
    ∨ (e.is_synced = false ∧ e.is_local_only = true ∧ e.is_drive_only = false)
    ∨ (e.is_synced = false ∧ e.is_local_only = false ∧ e.is_drive_only = true) := by
  cases hd : pyTruthy e.drive_id <;> cases hp : pyTruthy e.local_path <;>
    simp [Book.is_synced, Book.is_local_only, Book.is_drive_only, hd, hp] at h ⊢

/-- **C6.** Every entry of the merged catalog has at least one of `localPath`
and `remoteId` present, the catalog contains at most one entry per distinct
name, and for every entry with at least one of the two fields set, exactly
one of `isSynced`, `isLocalOnly`, `isRemoteOnly` holds.  (Stated for inputs
shaped as the listers produce them: local entries carry a nonempty local
path and no drive id, remote entries carry a nonempty drive id and no local
path.) -/
theorem C6_catalog_invariants (local_books drive_books : List Book)
    (hlp : ∀ b ∈ local_books, pyTruthy b.local_path = true)
    (hld : ∀ b ∈ local_books, b.drive_id = none)
    (hdd : ∀ r ∈ drive_books, pyTruthy r.drive_id = true)
    (hdp : ∀ r ∈ drive_books, r.local_path = none) :
    (∀ e ∈ get_library local_books drive_books,
        e.local_path.isSome = true ∨ e.drive_id.isSome = true)
    ∧ ((get_library local_books drive_books).map Book.name).Nodup
    ∧ (∀ e ∈ get_library local_books drive_books,
        e.local_path.isSome = true ∨ e.drive_id.isSome = true →
        ((e.is_synced = true ∧ e.is_local_only = false ∧ e.is_drive_only = false)
         ∨ (e.is_synced = false ∧ e.is_local_only = true ∧ e.is_drive_only = false)
         ∨ (e.is_synced = false ∧ e.is_local_only = false ∧ e.is_drive_only = true))) := by
  have h1 : ∀ y ∈ local_books.foldl (pyUpsert Book.name (fun _ b => b)) [],
      pyTruthy y.local_path = true ∧ y.drive_id = none := by
    refine foldl_pyUpsert_inv
      (fun b => pyTruthy b.local_path = true ∧ b.drive_id = none)
      (fun b => pyTruthy b.local_path = true ∧ b.drive_id = none)
      (fun _ h => h) (fun _ _ _ hb => hb) local_books [] (fun x hx => by cases hx)
      (fun b hb => ⟨hlp b hb, hld b hb⟩)
  have hP : ∀ y ∈ mergedPre local_books drive_books,
      (pyTruthy y.local_path = true ∨ pyTruthy y.drive_id = true)
      ∧ y.local_path ≠ some "" ∧ y.drive_id ≠ some "" := by
    refine foldl_pyUpsert_inv
      (fun y => (pyTruthy y.local_path = true ∨ pyTruthy y.drive_id = true)
        ∧ y.local_path ≠ some "" ∧ y.drive_id ≠ some "")
      (fun r => pyTruthy r.drive_id = true ∧ r.local_path = none)
      ?_ ?_ drive_books _ ?_ (fun r hr => ⟨hdd r hr, hdp r hr⟩)
    · intro b hb
      exact ⟨Or.inr hb.1, by rw [hb.2]; exact Option.noConfusion, pyTruthy_ne_empty hb.1⟩
    · intro x b hx hb
      exact ⟨Or.inr hb.1, hx.2.1, pyTruthy_ne_empty hb.1⟩
    · intro x hx
      obtain ⟨hp, hdn⟩ := h1 x hx
      exact ⟨Or.inl hp, pyTruthy_ne_empty hp, by rw [hdn]; exact Option.noConfusion⟩
  refine ⟨?_, nodup_names_get_library local_books drive_books, ?_⟩
  · intro e he
    obtain ⟨ho, _, _⟩ := hP e ((mem_get_library local_books drive_books).mp he)
    rcases ho with h | h
    · exact Or.inl (pyTruthy_isSome h)
    · exact Or.inr (pyTruthy_isSome h)
  · intro e he _
    obtain ⟨ho, _, _⟩ := hP e ((mem_get_library local_books drive_books).mp he)
    exact trichotomy_of_present e ho

/-- Witness for C6 at a concrete input. -/
theorem C6_catalog_invariants_witness :
    (∀ e ∈ get_library
        [{ name := "a.pdf", local_path := some "/r/a.pdf" }]
        [{ name := "a.pdf", drive_id := some "X1" },
         { name := "c.pdf", drive_id := some "X3" }],
        e.local_path.isSome = true ∨ e.drive_id.isSome = true)
    ∧ ((get_library
        [{ name := "a.pdf", local_path := some "/r/a.pdf" }]
        [{ name := "a.pdf", drive_id := some "X1" },
         { name := "c.pdf", drive_id := some "X3" }]).map Book.name).Nodup
    ∧ (∀ e ∈ get_library
        [{ name := "a.pdf", local_path := some "/r/a.pdf" }]
        [{ name := "a.pdf", drive_id := some "X1" },
         { name := "c.pdf", drive_id := some "X3" }],
        e.local_path.isSome = true ∨ e.drive_id.isSome = true →
        ((e.is_synced = true ∧ e.is_local_only = false ∧ e.is_drive_only = false)
         ∨ (e.is_synced = false ∧ e.is_local_only = true ∧ e.is_drive_only = false)
         ∨ (e.is_synced = false ∧ e.is_local_only = false ∧ e.is_drive_only = true))) :=
  C6_catalog_invariants
    [{ name := "a.pdf", local_path := some "/r/a.pdf" }]
    [{ name := "a.pdf", drive_id := some "X1" },
     { name := "c.pdf", drive_id := some "X3" }]
    (by decide) (by decide) (by decide) (by decide)

theorem band_parts {a b : Bool} (h : (a && b) = true) : a = true ∧ b = true := by
  cases a <;> cases b <;> simp_all

/-- **C2.** For every merged catalog, `diff` returns `toUpload` = exactly the
entries that are local-only and `toDownload` = exactly the entries that are
remote-only; synced entries appear in neither list; and any name present in
both input listings appears in neither `toUpload` nor `toDownload`.  (Stated
for inputs shaped as the listers produce them: local entries have truthy
local paths, remote entries truthy drive ids.) -/
theorem C2_diff_partitions (local_books drive_books : List Book)
    (hlp : ∀ b ∈ local_books, pyTruthy b.local_path = true)
    (hdd : ∀ r ∈ drive_books, pyTruthy r.drive_id = true) :
    (∀ e, e ∈ (get_diff local_books drive_books).1 ↔
        e ∈ get_library local_books drive_books ∧ e.is_local_only = true)
    ∧ (∀ e, e ∈ (get_diff local_books drive_books).2 ↔
        e ∈ get_library local_books drive_books ∧ e.is_drive_only = true)
    ∧ (∀ e ∈ get_library local_books drive_books, e.is_synced = true →
        e ∉ (get_diff local_books drive_books).1
        ∧ e ∉ (get_diff local_books drive_books).2)
    ∧ (∀ x ∈ local_books, ∀ r ∈ drive_books, x.name = r.name →
        (∀ e ∈ (get_diff local_books drive_books).1, e.name ≠ x.name)
        ∧ (∀ e ∈ (get_diff local_books drive_books).2, e.name ≠ x.name)) := by
  have hfst : (get_diff local_books drive_books).1 =
      (get_library local_books drive_books).filter Book.is_local_only := rfl
  have hsnd : (get_diff local_books drive_books).2 =
      (get_library local_books drive_books).filter Book.is_drive_only := rfl
  refine ⟨?_, ?_, ?_, ?_⟩
  · intro e
    rw [hfst, List.mem_filter]
  · intro e
    rw [hsnd, List.mem_filter]
  · intro e _ hs
    have hbd : pyTruthy e.drive_id = true := (band_parts hs).1
    have hbp : pyTruthy e.local_path = true := (band_parts hs).2
    constructor
    · intro hmem
      rw [hfst, List.mem_filter] at hmem
      have h2 := (band_parts hmem.2).2
      rw [hbd] at h2
      cases h2
    · intro hmem
      rw [hsnd, List.mem_filter] at hmem
      have h2 := (band_parts hmem.2).2
      rw [hbp] at h2
      cases h2
  · intro x hx r hr hxr
    -- The merged entry under this shared name carries a truthy local path
    -- and a truthy drive id, hence is synced and filtered out of both lists.
    have hxf : x ∈ local_books.filter (fun b => b.name = x.name) :=
      List.mem_filter.mpr ⟨hx, by simp⟩
    obtain hnil | ⟨l1, xl, hl1⟩ :=
      (local_books.filter (fun b => b.name = x.name)).eq_nil_or_concat
    · rw [hnil] at hxf
      cases hxf
    rw [List.concat_eq_append] at hl1
    have hrf : r ∈ drive_books.filter (fun b => b.name = x.name) :=
      List.mem_filter.mpr ⟨hr, by simp [hxr.symm]⟩
    obtain hnil | ⟨l2, rl, hl2⟩ :=
      (drive_books.filter (fun b => b.name = x.name)).eq_nil_or_concat
    · rw [hnil] at hrf
      cases hrf
    rw [List.concat_eq_append] at hl2
    have hxl : xl ∈ local_books :=
      (List.mem_filter.mp (hl1 ▸ List.mem_append_right l1 (List.mem_singleton_self xl))).1
    have hrl : rl ∈ drive_books :=
      (List.mem_filter.mp (hl2 ▸ List.mem_append_right l2 (List.mem_singleton_self rl))).1
    have hlook := lookup_mergedPre local_books drive_books x.name
    rw [hl1, foldl_replaceStep_last l1 xl none, hl2] at hlook
    obtain ⟨v, hv, hvd, _⟩ := foldl_mergeStep_last l2 rl (some xl)
    obtain ⟨v2, hv2, hp2⟩ := foldl_mergeStep_local_path (l2 ++ [rl]) xl
    have hvv : v2 = v := Option.some.inj (hv2.symm.trans hv)
    rw [hv] at hlook
    have hvdrive : pyTruthy v.drive_id = true := by
      rw [hvd]
      exact hdd rl hrl
    have hvpath : pyTruthy v.local_path = true := by
      rw [← hvv, hp2]
      exact hlp xl hxl
    have hkey : ∀ e ∈ get_library local_books drive_books, e.name = x.name → e = v := by
      intro e he hen
      have h := lookup_get_library local_books drive_books he
      rw [hen, hlook] at h
      exact (Option.some.inj h).symm
    constructor
    · intro e hmem hen
      rw [hfst, List.mem_filter] at hmem
      have hev := hkey e hmem.1 hen
      have h2 := (band_parts hmem.2).2
      rw [hev, hvdrive] at h2
      cases h2
    · intro e hmem hen
      rw [hsnd, List.mem_filter] at hmem
      have hev := hkey e hmem.1 hen
      have h2 := (band_parts hmem.2).2
      rw [hev, hvpath] at h2
      cases h2

/-- Witness for C2 at a concrete input: with `a.pdf` on both sides and
`b.pdf` local-only, the shared name appears in neither list. -/
theorem C2_diff_partitions_witness :
    (∀ e ∈ (get_diff
        [{ name := "a.pdf", local_path := some "/r/a.pdf" },
         { name := "b.pdf", local_path := some "/r/b.pdf" }]
        [{ name := "a.pdf", drive_id := some "X1" }]).1,
      e.name ≠ ({ name := "a.pdf", local_path := some "/r/a.pdf" } : Book).name)
    ∧ (∀ e ∈ (get_diff
        [{ name := "a.pdf", local_path := some "/r/a.pdf" },
         { name := "b.pdf", local_path := some "/r/b.pdf" }]
        [{ name := "a.pdf", drive_id := some "X1" }]).2,
      e.name ≠ ({ name := "a.pdf", local_path := some "/r/a.pdf" } : Book).name) :=
  (C2_diff_partitions
    [{ name := "a.pdf", local_path := some "/r/a.pdf" },
     { name := "b.pdf", local_path := some "/r/b.pdf" }]
    [{ name := "a.pdf", drive_id := some "X1" }]
    (by decide) (by decide)).2.2.2
    { name := "a.pdf", local_path := some "/r/a.pdf" } (by decide)
    { name := "a.pdf", drive_id := some "X1" } (by decide) rfl

/-! ## The CLI layer: `main.py`, `core/drive_logic.py` -/

/-- A file as returned by `list_drive_files` (`core/drive_logic.py` lines
89-157): Drive metadata plus the `category` key set from the enclosing
subfolder's name (absent for files in the root). -/
structure DriveFile where
  name : String
  id : String
  size : Nat := 0
  category : Option String := none
  parents : List String := []
  description : Option String := none
deriving DecidableEq, Repr

/-- A file as returned by `list_local_files` (`core/library.py`): name, full
path, size, and the first path segment under the root as category. -/
structure LocalFile where
  name : String
  path : String
  size : Nat := 0
  category : Option String := none
deriving DecidableEq, Repr

/-- One step of the substring scan behind Python's `pattern in text`. -/
def infixScan (pattern : List Char) : List Char → Bool
  | [] => pattern.isEmpty
  | a :: rest => pattern.isPrefixOf (a :: rest) || infixScan pattern rest

/-- Python's `pattern in text` on strings. -/
def containsSub (text pattern : String) : Bool :=
  infixScan pattern.data text.data

/-- Status decoding from a Drive description (`main.py` lines 46-50 and
`drive_service.py`): a missing or empty description is NEW, `[reading]`
wins over `[finished]`, anything else is NEW. -/
def parse_status (description : Option String) : BookStatus :=
  match description with
  | none => .new
  | some d =>
    if d.isEmpty then .new
    else if containsSub d "[reading]" then .reading
    else if containsSub d "[finished]" then .finished
    else .new

/-- The description template written by `mark` (`main.py` line 118):
`f"[{status}] Updated via Bookshell"`. -/
def mark_description (status : String) : String :=
  "[" ++ status ++ "] Updated via Bookshell"

/-- `mark` (`main.py` lines 103-120): find the first Drive file with the
given name and overwrite its whole description with the template; the
result is the remote listing a fresh `list_drive_files` would report. -/
def mark (drive_books : List DriveFile) (book_name status : String) :
    List DriveFile :=
  match drive_books.find? (fun b => b.name = book_name) with
  | none => drive_books
  | some target =>
    drive_books.map (fun b =>
      if b.id = target.id then { b with description := some (mark_description status) }
      else b)

/-- The category comparison of `_push_single_file` (`main.py` lines 274-276):
`(category is None and drive_cat is None) or
(category and drive_cat and category.lower() == drive_cat.lower())`. -/
def cats_match (category drive_cat : Option String) : Bool :=
  (category.isNone && drive_cat.isNone) ||
  (pyTruthy category && pyTruthy drive_cat &&
    (strLower (category.getD "") == strLower (drive_cat.getD "")))

/-- A folder on Drive, for `get_or_create_subfolder`. -/
structure DriveFolder where
  id : String
  name : String
  parent : String
deriving DecidableEq, Repr

/-- `get_or_create_subfolder` (`core/drive_logic.py` lines 160-181): find a
subfolder with this name under the parent; create one (with a fresh id)
only when absent.  Returns the folder id and the resulting folder state. -/
def get_or_create_subfolder (folders : List DriveFolder)
    (parent_id subfolder_name fresh_id : String) : String × List DriveFolder :=
  match folders.find? (fun f => f.name == subfolder_name && f.parent == parent_id) with
  | some f => (f.id, folders)
  | none =>
    (fresh_id, folders ++ [{ id := fresh_id, name := subfolder_name, parent := parent_id }])

/-- The interactive answer to the duplicate-conflict prompt
(`main.py` lines 259-262). -/
inductive DupChoice where
  | pick (i : Nat)
  | skipFile
deriving DecidableEq, Repr

/-- The interactive answer to the category-conflict prompt
(`main.py` lines 283-290). -/
inductive ConflictChoice where
  | useLocal
  | useDrive
  | skipFile
deriving DecidableEq, Repr

/-- Effective category shown by the resolver:
`f.get('category') or 'General'` (`main.py` line 254). -/
def effective_category (c : Option String) : String :=
  match c with
  | none => "General"
  | some s => if s.isEmpty then "General" else s

/-- Python `s[-4:]`: the last four characters (whole string when shorter). -/
def last4 (s : String) : String :=
  ⟨s.data.drop (s.data.length - 4)⟩

/-- The choice labels presented for a duplicate conflict
(`main.py` lines 252-257): one numbered entry per candidate, tagged with
its effective category and truncated id, plus a skip entry. -/
def dup_choice_labels (existing_files : List DriveFile) : List String :=
  (existing_files.enum.map (fun p =>
    toString (p.1 + 1) ++ ". " ++ effective_category p.2.category ++
      " (ID: ..." ++ last4 p.2.id ++ ")"))
  ++ ["Skip this file"]

/-- The externally visible outcome of `_push_single_file`: which transfer
calls were made and what was recorded in the database. -/
inductive PushAction where
  | skippedDup
  | movedRemote (file_id : String) (from_parents : List String) (target_folder : String)
  | keptDrive (file_id : String)
  | skippedConflict (file_id : String)
  | alreadySynced (file_id : String)
  | uploaded (drive_id saved_name : String) (saved_category : Option String)
  | uploadFailed
deriving DecidableEq, Repr

/-- The drive file a `PushAction` engaged as counterpart, if any. -/
def PushAction.engaged : PushAction → Option String
  | .movedRemote fid _ _ => some fid
  | .keptDrive fid => some fid
  | .skippedConflict fid => some fid
  | .alreadySynced fid => some fid
  | _ => none

/-- The `if existing_file:` block of `_push_single_file` (`main.py` lines
271-308): compare categories; on a mismatch apply the chosen resolution
(move the remote file into the local category's folder, creating it when
needed; keep the Drive placement; or skip), on a match do nothing — in all
cases the push ends here with no upload. -/
def resolve_existing (root_folder_id : String) (folders : List DriveFolder)
    (category : Option String) (existing_file : DriveFile)
    (conflict_choice : ConflictChoice) (fresh_folder_id : String) :
    PushAction × List DriveFolder :=
  if cats_match category existing_file.category then
    (PushAction.alreadySynced existing_file.id, folders)
  else
    match conflict_choice with
    | .skipFile => (PushAction.skippedConflict existing_file.id, folders)
    | .useLocal =>
      let target :=
        if pyTruthy category then
          get_or_create_subfolder folders root_folder_id (category.getD "") fresh_folder_id
        else (root_folder_id, folders)
      (PushAction.movedRemote existing_file.id existing_file.parents target.1, target.2)
    | .useDrive => (PushAction.keptDrive existing_file.id, folders)

/-- `_push_single_file` (`main.py` lines 228-328), with the category already
resolved (CLI argument or auto-detected folder), the interactive answers
and the collaborator's upload outcome passed in explicitly.
`root_folder_id` is the configured root; `fresh_folder_id` is the id Drive
would assign to a newly created subfolder.  Returns the action taken and the
resulting Drive folder state (on the upload path the category subfolder is
created, when needed, before the transfer is attempted). -/
def push_single_file (root_folder_id : String) (folders : List DriveFolder)
    (file_name : String) (category : Option String) (drive_books : List DriveFile)
    (dup_choice : DupChoice) (conflict_choice : ConflictChoice)
    (upload_result : Option String) (fresh_folder_id : String) :
    PushAction × List DriveFolder :=
  let existing_files := drive_books.filter (fun b => b.name = file_name)
  let handle := fun (existing_file : DriveFile) =>
    resolve_existing root_folder_id folders category existing_file
      conflict_choice fresh_folder_id
  if existing_files.length > 1 then
    match dup_choice with
    | .skipFile => (.skippedDup, folders)
    | .pick i =>
      match existing_files.get? i with
      | some f => handle f
      | none => (.skippedDup, folders)
  else
    match existing_files with
    | [] =>
      let target :=
        if pyTruthy category then
          get_or_create_subfolder folders root_folder_id (category.getD "") fresh_folder_id
        else (root_folder_id, folders)
      match upload_result with
      | some drive_id => (PushAction.uploaded drive_id file_name category, target.2)
      | none => (PushAction.uploadFailed, target.2)
    | f :: _ => handle f

/-! ## Pull orchestration: CLI (`main.py`) and service (`sync_service.py`) -/

/-- Outcome of the single-file CLI pull (`main.py` lines 192-225). -/
inductive PullOutcome where
  | notFound
  | alreadyExists (target_path : String)
  | downloaded (target_path : String)
  | failed (target_path : String)
deriving DecidableEq, Repr

/-- Destination path computed by the CLI pull (`main.py` lines 204-207):
`local_root / category / name` when the Drive entry has a truthy category,
`local_root / name` otherwise. -/
def cli_pull_target_path (local_root : String) (category : Option String)
    (book_name : String) : String :=
  if pyTruthy category then local_root ++ "/" ++ category.getD "" ++ "/" ++ book_name
  else local_root ++ "/" ++ book_name

/-- Single-file `pull` (`main.py` lines 192-225): find the book on Drive,
compute the destination, return early when a file already exists there
(checked before any transfer), otherwise download. -/
def cli_pull_single (local_root : String) (drive_books : List DriveFile)
    (book_name : String) (file_exists : String → Bool)
    (download_ok : String → Bool) : PullOutcome :=
  match drive_books.find? (fun b => b.name = book_name) with
  | none => .notFound
  | some target =>
    let target_path := cli_pull_target_path local_root target.category book_name
    if file_exists target_path then .alreadyExists target_path
    else if download_ok target.id then .downloaded target_path
    else .failed target_path

/-- Result of the bulk CLI pull (`main.py` lines 138-190): the ids for which
a download was attempted, the names saved to the database (successful
downloads only) and the count printed by the final
`Successfully downloaded {count} files!` message. -/
structure CliPullAllResult where
  attempted : List String
  saved : List String
  reported_count : Nat
deriving DecidableEq, Repr

/-- Bulk `pull --all` (`main.py` lines 138-190): `to_download` is every
Drive book whose name is not among the local file names; each is downloaded
in turn (a failed download does not stop the loop and is not saved), and
the final message reports `count = len(to_download)` — the number of
attempts, not of successes. -/
def cli_pull_all (drive_books : List DriveFile) (local_files : List LocalFile)
    (download_ok : String → Bool) : CliPullAllResult :=
  let local_names := local_files.map (fun f => f.name)
  let to_download := drive_books.filter (fun b => !(local_names.contains b.name))
  let saved := to_download.foldl
    (fun acc b => if download_ok b.id then acc ++ [b.name] else acc) []
  { attempted := to_download.map (fun b => b.id)
    saved := saved
    reported_count := to_download.length }

/-- The download calls (`drive_id`, `target_path`) made and the successes
recorded by `SyncService.sync_pull`. -/
structure SyncPullResult where
  attempts : List (String × String)
  successes : List String
deriving DecidableEq, Repr

/-- `SyncService.sync_pull` (`sync_service.py` lines 49-78): select the
targets (the named book, or the drive-only books under `--all`), then for
each target with a truthy drive id and a configured local root download to
`local_root / (category or "General") / name` — with no check whether a
file already exists at that destination. -/
def sync_pull (local_books drive_books : List Book) (book_name : Option String)
    (all : Bool) (local_root : Option String)
    (download_ok : String → String → Bool) : SyncPullResult :=
  let library := get_library local_books drive_books
  let targets : List Book :=
    if pyTruthy book_name then
      match library.find? (fun b => b.name = book_name.getD "") with
      | some t => [t]
      | none => []
    else if all then library.filter Book.is_drive_only
    else []
  targets.foldl
    (fun res book =>
      if !pyTruthy book.drive_id then res
      else
        match local_root with
        | none => res
        | some root =>
          let category :=
            match book.category with
            | some c => if c.isEmpty then "General" else c
            | none => "General"
          let target_path := root ++ "/" ++ category ++ "/" ++ book.name
          let did := book.drive_id.getD ""
          let res := { res with attempts := res.attempts ++ [(did, target_path)] }
          if download_ok did target_path then
            { res with successes := res.successes ++ [book.name] }
          else res)
    { attempts := [], successes := [] }

/-- `SyncService.sync_push` (`sync_service.py` lines 80-105): select the
targets (the named book, or the local-only books under `--all`), upload
each one with a truthy local path, and record the names whose upload
returned a truthy id.  A failed upload is skipped, not recorded, and does
not stop the loop. -/
def sync_push (local_books drive_books : List Book) (book_name : Option String)
    (all : Bool) (upload_result : String → Option String) : List String :=
  let library := get_library local_books drive_books
  let targets : List Book :=
    if pyTruthy book_name then
      match library.find? (fun b => b.name = book_name.getD "") with
      | some t => [t]
      | none => []
    else if all then library.filter Book.is_local_only
    else []
  targets.foldl
    (fun acc book =>
      if !pyTruthy book.local_path then acc
      else if pyTruthy (upload_result (book.local_path.getD "")) then acc ++ [book.name]
      else acc)
    []

/-- **C3 (counterexample).** The claim says a local category of `None`
compared against a remote category `"general"` matches, with no conflict.
The code's comparison is strict about `None` (`main.py` lines 274-276): it
returns no match, and pushing such a file engages the conflict prompt
(here answered with skip). -/
theorem C3_counterexample_none_vs_general :
    cats_match none (some "general") = false
    ∧ (push_single_file "ROOT" [] "c.epub" none
        [{ name := "c.epub", id := "ID1", category := some "general" }]
        DupChoice.skipFile ConflictChoice.skipFile none "F1").1 =
      PushAction.skippedConflict "ID1" := by
  decide

/-- **C3 (amended).** During push conflict detection the categories match
iff both are absent (`None`) or both are present, nonempty, and equal
case-insensitively; in particular local `None` against remote `"general"`
is a mismatch and triggers the conflict prompt (no `"General"`
normalisation is applied to an absent side).  A fresh upload with no
category stores `category = None`, never the string `"General"`, and
creates no category folder. -/
theorem C3_cats_match_strict :
    (∀ category drive_cat : Option String,
      cats_match category drive_cat = true ↔
        ((category = none ∧ drive_cat = none) ∨
         (∃ s t, category = some s ∧ drive_cat = some t ∧ s ≠ "" ∧ t ≠ "" ∧
           strLower s = strLower t)))
    ∧ (∀ (root : String) (folders : List DriveFolder) (name : String)
        (books : List DriveFile) (dc : DupChoice) (cc : ConflictChoice)
        (id fresh : String),
        books.filter (fun b => b.name = name) = [] →
        push_single_file root folders name none books dc cc (some id) fresh =
          (PushAction.uploaded id name none, folders)) := by
  constructor
  · intro category drive_cat
    cases category with
    | none =>
      cases drive_cat with
      | none => simp [cats_match]
      | some t => simp [cats_match, pyTruthy]
    | some s =>
      cases drive_cat with
      | none => simp [cats_match, pyTruthy]
      | some t =>
        simp only [cats_match, pyTruthy, Option.isNone_some, Bool.and_eq_true,
          Bool.or_eq_true, Bool.and_self, Option.getD_some, beq_iff_eq,
          Bool.not_eq_true']
        constructor
        · rintro (h | ⟨⟨hs, ht⟩, he⟩)
          · cases h
          · refine Or.inr ⟨s, t, rfl, rfl, ?_, ?_, he⟩
            · intro he1
              rw [he1] at hs
              exact absurd hs (by decide)
            · intro he2
              rw [he2] at ht
              exact absurd ht (by decide)
        · rintro (⟨h1, _⟩ | ⟨s1, t1, hs1, ht1, hne1, hne2, he⟩)
          · cases h1
          · obtain rfl := Option.some.inj hs1
            obtain rfl := Option.some.inj ht1
            refine Or.inr ⟨⟨?_, ?_⟩, he⟩
            · cases hcase : s.isEmpty with
              | false => rfl
              | true => exact absurd ((String.isEmpty_iff s).mp hcase) hne1
            · cases hcase : t.isEmpty with
              | false => rfl
              | true => exact absurd ((String.isEmpty_iff t).mp hcase) hne2
  · intro root folders name books dc cc id fresh hf
    simp [push_single_file, hf, pyTruthy]

/-- Witness for the amended C3: same-letter categories in different case
match, and a fresh upload with no category records `category = none`. -/
theorem C3_cats_match_strict_witness :
    cats_match (some "Math") (some "math") = true
    ∧ push_single_file "ROOT" [] "new.pdf" none [] DupChoice.skipFile
        ConflictChoice.skipFile (some "NEWID") "F1" =
      (PushAction.uploaded "NEWID" "new.pdf" none, []) := by
  constructor
  · exact (C3_cats_match_strict.1 (some "Math") (some "math")).mpr
      (Or.inr ⟨"Math", "math", rfl, rfl, by decide, by decide, by decide⟩)
  · exact C3_cats_match_strict.2 "ROOT" [] "new.pdf" [] DupChoice.skipFile
      ConflictChoice.skipFile "NEWID" "F1" rfl

/-- Any resolution of an existing counterpart engages exactly that file and
never uploads. -/
theorem resolve_existing_engaged (root : String) (folders : List DriveFolder)
    (category : Option String) (f : DriveFile) (cc : ConflictChoice) (fresh : String) :
    ((resolve_existing root folders category f cc fresh).1).engaged = some f.id := by
  simp only [resolve_existing]
  by_cases h : cats_match category f.category = true
  · rw [if_pos h]
    rfl
  · rw [if_neg h]
    cases cc <;> rfl

theorem engaged_ne_upload {a : PushAction} {fid : String}
    (h : a.engaged = some fid) :
    (∀ d n c, a ≠ PushAction.uploaded d n c) ∧ a ≠ PushAction.uploadFailed := by
  cases a <;> simp_all [PushAction.engaged]

/-- **C4.** When a pushed file's name matches more than one remote object,
the resolver presents every candidate tagged with its effective category and
a truncated identifier plus an explicit skip entry, requires an explicit
choice (skip leads to no action, and any engaged counterpart comes from the
explicit pick), never auto-selects, and never uploads an additional copy. -/
theorem C4_duplicate_requires_choice (root : String) (folders : List DriveFolder)
    (file_name : String) (category : Option String) (drive_books : List DriveFile)
    (existing_files : List DriveFile)
    (dc : DupChoice) (cc : ConflictChoice) (up : Option String) (fresh : String)
    (hex : existing_files = drive_books.filter (fun b => b.name = file_name))
    (hdup : 2 ≤ existing_files.length) :
    (dup_choice_labels existing_files).length = existing_files.length + 1
    ∧ (∀ i (h : i < existing_files.length),
        toString (i + 1) ++ ". " ++ effective_category (existing_files[i].category)
          ++ " (ID: ..." ++ last4 (existing_files[i].id) ++ ")" ∈
          dup_choice_labels existing_files)
    ∧ (dup_choice_labels existing_files).getLast? = some "Skip this file"
    ∧ (∀ d n c,
        (push_single_file root folders file_name category drive_books dc cc up fresh).1 ≠
          PushAction.uploaded d n c)
    ∧ (push_single_file root folders file_name category drive_books dc cc up fresh).1 ≠
        PushAction.uploadFailed
    ∧ (dc = DupChoice.skipFile →
        push_single_file root folders file_name category drive_books dc cc up fresh =
          (PushAction.skippedDup, folders))
    ∧ (∀ fid,
        ((push_single_file root folders file_name category drive_books dc cc up fresh).1).engaged
          = some fid →
        ∃ i f, dc = DupChoice.pick i ∧ existing_files.get? i = some f ∧ f.id = fid) := by
  have hgt : (drive_books.filter (fun b => b.name = file_name)).length > 1 := by
    rw [← hex]
    exact lt_of_lt_of_le Nat.one_lt_two hdup
  have hpush : push_single_file root folders file_name category drive_books dc cc up fresh =
      match dc with
      | .skipFile => (PushAction.skippedDup, folders)
      | .pick i =>
        match (drive_books.filter (fun b => b.name = file_name)).get? i with
        | some f => resolve_existing root folders category f cc fresh
        | none => (PushAction.skippedDup, folders) := by
    simp only [push_single_file]
    rw [if_pos hgt]
  refine ⟨?_, ?_, ?_, ?_, ?_, ?_, ?_⟩
  · simp [dup_choice_labels]
  · intro i h
    have hb : i < existing_files.enum.length := by simpa using h
    have hmem : (i, existing_files[i]) ∈ existing_files.enum := by
      have hg : existing_files.enum[i] = (i, existing_files[i]) := by simp
      exact hg ▸ List.getElem_mem hb
    exact List.mem_append_left _ (List.mem_map_of_mem _ hmem)
  · exact List.getLast?_concat _
  · intro d n c
    rw [hpush]
    cases dc with
    | skipFile => simp
    | pick i =>
      cases hget : (drive_books.filter (fun b => b.name = file_name)).get? i with
      | none =>
        simp only [hget]
        simp
      | some f =>
        simp only [hget]
        exact (engaged_ne_upload (resolve_existing_engaged root folders category f cc fresh)).1 d n c
  · rw [hpush]
    cases dc with
    | skipFile => simp
    | pick i =>
      cases hget : (drive_books.filter (fun b => b.name = file_name)).get? i with
      | none =>
        simp only [hget]
        simp
      | some f =>
        simp only [hget]
        exact (engaged_ne_upload (resolve_existing_engaged root folders category f cc fresh)).2
  · intro hdc
    subst hdc
    rw [hpush]
  · intro fid hfid
    rw [hpush] at hfid
    cases dc with
    | skipFile => cases hfid
    | pick i =>
      rw [← hex] at hfid
      have hfid2 : (match existing_files.get? i with
          | some f => resolve_existing root folders category f cc fresh
          | none => (PushAction.skippedDup, folders)).1.engaged = some fid := hfid
      cases hget : existing_files.get? i with
      | none =>
        rw [hget] at hfid2
        cases hfid2
      | some f =>
        rw [hget] at hfid2
        rw [resolve_existing_engaged root folders category f cc fresh] at hfid2
        exact ⟨i, f, rfl, hget, Option.some.inj hfid2⟩

/-- Witness for C4: two remote copies of `c.epub` (one in `math`, one
uncategorised); the push never uploads and skip leads to no action. -/
theorem C4_duplicate_requires_choice_witness :
    (∀ d n c,
      (push_single_file "ROOT" [] "c.epub" (some "math")
        [{ name := "c.epub", id := "AAAA1111", category := some "math" },
         { name := "c.epub", id := "BBBB2222" }]
        DupChoice.skipFile ConflictChoice.useLocal (some "NEW") "F1").1 ≠
        PushAction.uploaded d n c)
    ∧ (push_single_file "ROOT" [] "c.epub" (some "math")
        [{ name := "c.epub", id := "AAAA1111", category := some "math" },
         { name := "c.epub", id := "BBBB2222" }]
        DupChoice.skipFile ConflictChoice.useLocal (some "NEW") "F1" =
        (PushAction.skippedDup, [])) := by
  have h := C4_duplicate_requires_choice "ROOT" [] "c.epub" (some "math")
    [{ name := "c.epub", id := "AAAA1111", category := some "math" },
     { name := "c.epub", id := "BBBB2222" }]
    ([{ name := "c.epub", id := "AAAA1111", category := some "math" },
      { name := "c.epub", id := "BBBB2222" }].filter (fun b => b.name = "c.epub"))
    DupChoice.skipFile ConflictChoice.useLocal (some "NEW") "F1" rfl (by decide)
  exact ⟨h.2.2.2.1, h.2.2.2.2.2.1 rfl⟩

/-- **C5.** With exactly one remote counterpart of differing category, the
three resolutions are mutually exclusive and each ends the push with no
upload: "use local" moves the remote object into the local category's
folder (creating that remote folder only when absent, reusing it
otherwise); "use drive" leaves everything unchanged; "skip" does nothing.
When the categories match under the comparison, the push is a no-op and the
file is not uploaded again. -/
theorem C5_single_conflict_resolutions (root : String) (folders : List DriveFolder)
    (file_name : String) (category : Option String) (drive_books : List DriveFile)
    (dc : DupChoice) (up : Option String) (fresh : String) (f : DriveFile)
    (hex : drive_books.filter (fun b => b.name = file_name) = [f]) :
    (cats_match category f.category = false →
      (∀ c, category = some c → c.isEmpty = false →
        (∀ g ∈ folders, (g.name == c && g.parent == root) = false) →
        push_single_file root folders file_name category drive_books dc
            ConflictChoice.useLocal up fresh =
          (PushAction.movedRemote f.id f.parents fresh,
            folders ++ [{ id := fresh, name := c, parent := root }]))
      ∧ (∀ c g, category = some c → c.isEmpty = false →
          folders.find? (fun g2 => g2.name == c && g2.parent == root) = some g →
          push_single_file root folders file_name category drive_books dc
              ConflictChoice.useLocal up fresh =
            (PushAction.movedRemote f.id f.parents g.id, folders))
      ∧ (category = none →
          push_single_file root folders file_name category drive_books dc
              ConflictChoice.useLocal up fresh =
            (PushAction.movedRemote f.id f.parents root, folders))
      ∧ push_single_file root folders file_name category drive_books dc
          ConflictChoice.useDrive up fresh = (PushAction.keptDrive f.id, folders)
      ∧ push_single_file root folders file_name category drive_books dc
          ConflictChoice.skipFile up fresh = (PushAction.skippedConflict f.id, folders))
    ∧ (cats_match category f.category = true →
        ∀ cc, push_single_file root folders file_name category drive_books dc cc up fresh =
          (PushAction.alreadySynced f.id, folders)) := by
  have hpush : ∀ cc, push_single_file root folders file_name category drive_books dc cc up fresh =
      resolve_existing root folders category f cc fresh := by
    intro cc
    simp only [push_single_file, hex]
    rw [if_neg (by simp)]
  constructor
  · intro hmis
    have hnm : ¬ cats_match category f.category = true := by
      rw [hmis]
      simp
    refine ⟨?_, ?_, ?_, ?_, ?_⟩
    · intro c hc hce hnone
      subst hc
      have hfind : folders.find? (fun g2 => g2.name == c && g2.parent == root) = none :=
        List.find?_eq_none.mpr (fun g hg => by simp [hnone g hg])
      rw [hpush]
      simp only [resolve_existing]
      rw [if_neg hnm]
      simp [pyTruthy, hce, get_or_create_subfolder, hfind]
    · intro c g hc hce hfind
      subst hc
      rw [hpush]
      simp only [resolve_existing]
      rw [if_neg hnm]
      simp [pyTruthy, hce, get_or_create_subfolder, hfind]
    · intro hc
      subst hc
      rw [hpush]
      simp only [resolve_existing]
      rw [if_neg hnm]
      simp [pyTruthy]
    · rw [hpush]
      simp only [resolve_existing]
      rw [if_neg hnm]
    · rw [hpush]
      simp only [resolve_existing]
      rw [if_neg hnm]
  · intro hmatch cc
    rw [hpush]
    simp only [resolve_existing]
    rw [if_pos hmatch]

/-- Witness for C5 at the spec's scenario: local `d.pdf` with category
`history`, remote `d.pdf` uncategorised; "use local" moves the remote file
into a newly created `history` folder and performs no upload. -/
theorem C5_single_conflict_resolutions_witness :
    push_single_file "ROOT" [] "d.pdf" (some "history")
        [{ name := "d.pdf", id := "DID1", parents := ["ROOT"] }]
        DupChoice.skipFile ConflictChoice.useLocal (some "UNUSED") "FRESH1" =
      (PushAction.movedRemote "DID1" ["ROOT"] "FRESH1",
        [{ id := "FRESH1", name := "history", parent := "ROOT" }]) := by
  have h := (C5_single_conflict_resolutions "ROOT" [] "d.pdf" (some "history")
    [{ name := "d.pdf", id := "DID1", parents := ["ROOT"] }]
    DupChoice.skipFile (some "UNUSED") "FRESH1"
    { name := "d.pdf", id := "DID1", parents := ["ROOT"] }
    (by decide)).1 (by decide)
  have h1 := h.1 "history" rfl (by decide) (by intro g hg; cases hg)
  simpa using h1

/-- **C7 (code bug).** The claim says a bulk transfer reports the aggregate
count of items that actually succeeded.  The service layer does
(`sync_push`/`sync_pull` return only the successes, and a failure does not
abort the batch), but the CLI bulk pull prints
`Successfully downloaded {count} files!` with `count = len(to_download)`
computed before the loop: with two missing books and the first download
failing, only `b.pdf` is saved yet the message reports 2.  The batch is
still not aborted (the second book is downloaded and saved). -/
theorem C7_cli_bulk_pull_reports_attempts_not_successes :
    cli_pull_all
        [{ name := "a.pdf", id := "id1" }, { name := "b.pdf", id := "id2" }]
        [] (fun did => did == "id2") =
      { attempted := ["id1", "id2"], saved := ["b.pdf"], reported_count := 2 }
    ∧ (cli_pull_all
        [{ name := "a.pdf", id := "id1" }, { name := "b.pdf", id := "id2" }]
        [] (fun did => did == "id2")).saved.length ≠
      (cli_pull_all
        [{ name := "a.pdf", id := "id1" }, { name := "b.pdf", id := "id2" }]
        [] (fun did => did == "id2")).reported_count
    ∧ sync_push
        [{ name := "a.pdf", local_path := some "/r/a.pdf" },
         { name := "b.pdf", local_path := some "/r/b.pdf" }]
        [] none true
        (fun p => if p == "/r/b.pdf" then some "NEW2" else none) = ["b.pdf"] := by
  refine ⟨by decide, by decide, ?_⟩
  decide

/-- **C8 (counterexample).** The claim says every pull (single or bulk)
skips an item when a local file already exists at the computed destination
`localRoot/<category or "General">/<name>`.  `SyncService.sync_pull`
performs no such check: pulling `x.pdf` by name while it is already synced
(its `local_path` is exactly the computed destination `root/math/x.pdf`)
still attempts and performs the download to that path.  Also, the CLI
single pull of an uncategorised book computes `localRoot/<name>`, not
`localRoot/General/<name>`. -/
theorem C8_counterexample_sync_pull_no_existence_check :
    sync_pull
        [{ name := "x.pdf", local_path := some "root/math/x.pdf",
           category := some "math" }]
        [{ name := "x.pdf", drive_id := some "D1" }]
        (some "x.pdf") false (some "root") (fun _ _ => true) =
      { attempts := [("D1", "root/math/x.pdf")], successes := ["x.pdf"] }
    ∧ cli_pull_target_path "root" none "y.pdf" = "root/y.pdf" := by
  constructor
  · decide
  · decide

/-- **C8 (amended).** In the CLI single pull, when a file already exists at
the computed destination (`localRoot/<category>/<name>` for a categorised
remote entry, `localRoot/<name>` otherwise) the item is skipped before any
transfer, with no download and no failure; the CLI bulk pull skips, before
downloading, every remote entry whose name appears in the local listing.
`SyncService.sync_pull` computes `localRoot/<category or "General">/<name>`
but performs no existence check and downloads even when the file exists. -/
theorem C8_cli_pull_skips_existing (local_root : String)
    (drive_books : List DriveFile) (local_files : List LocalFile)
    (book_name : String) (file_exists download_ok : String → Bool)
    (target : DriveFile)
    (hfind : drive_books.find? (fun b => b.name = book_name) = some target)
    (hex : file_exists (cli_pull_target_path local_root target.category book_name) = true) :
    cli_pull_single local_root drive_books book_name file_exists download_ok =
      PullOutcome.alreadyExists (cli_pull_target_path local_root target.category book_name)
    ∧ (∀ b ∈ drive_books, (local_files.map (fun f => f.name)).contains b.name = true →
        b ∉ drive_books.filter
          (fun c => !((local_files.map (fun f => f.name)).contains c.name))) := by
  constructor
  · simp only [cli_pull_single, hfind]
    rw [if_pos hex]
  · intro b _ hname hmem
    have hcond := (List.mem_filter.mp hmem).2
    rw [hname] at hcond
    cases hcond

/-- Witness for the amended C8: the single pull of `a.pdf` with the
destination file already present is reported as already existing, and a
remote book whose name is present locally is not in the bulk pull's
download set. -/
theorem C8_cli_pull_skips_existing_witness :
    cli_pull_single "root"
        [{ name := "a.pdf", id := "D1", category := some "math" }]
        "a.pdf" (fun p => p == "root/math/a.pdf") (fun _ => true) =
      PullOutcome.alreadyExists "root/math/a.pdf"
    ∧ ({ name := "a.pdf", id := "D1", category := some "math" } : DriveFile) ∉
        [{ name := "a.pdf", id := "D1", category := some "math" : DriveFile }].filter
          (fun c => !(([{ name := "a.pdf", path := "root/math/a.pdf" : LocalFile }].map
            (fun f => f.name)).contains c.name)) := by
  have h := C8_cli_pull_skips_existing "root"
    [{ name := "a.pdf", id := "D1", category := some "math" }]
    [{ name := "a.pdf", path := "root/math/a.pdf" }]
    "a.pdf" (fun p => p == "root/math/a.pdf") (fun _ => true)
    { name := "a.pdf", id := "D1", category := some "math" }
    (by decide) (by decide)
  exact ⟨h.1, h.2 { name := "a.pdf", id := "D1", category := some "math" }
    (by decide) (by decide)⟩

/-- **C9.** Status decoding maps a description containing `[reading]` to
READING, one containing `[finished]` (and not `[reading]`, which takes
precedence) to FINISHED, and any other or absent description to NEW.
Writing a status replaces the whole description with the template
`[<status>] Updated via Bookshell`, so `setStatus(name, s)` followed by a
fresh remote listing reports that entry's status as `s` for every status
value (round-trip). -/
theorem C9_status_roundtrip :
    (∀ d : String, d.isEmpty = false → containsSub d "[reading]" = true →
        parse_status (some d) = BookStatus.reading)
    ∧ (∀ d : String, d.isEmpty = false → containsSub d "[reading]" = false →
        containsSub d "[finished]" = true → parse_status (some d) = BookStatus.finished)
    ∧ parse_status none = BookStatus.new
    ∧ (∀ d : String, containsSub d "[reading]" = false →
        containsSub d "[finished]" = false → parse_status (some d) = BookStatus.new)
    ∧ (∀ st, mark_description st = "[" ++ st ++ "] Updated via Bookshell")
    ∧ (∀ (drive_books : List DriveFile) (nm : String) (target : DriveFile) (st : String),
        st = "reading" ∨ st = "finished" ∨ st = "new" →
        drive_books.find? (fun b => b.name = nm) = some target →
        ∀ b ∈ mark drive_books nm st, b.id = target.id →
          b.description = some (mark_description st)
          ∧ parse_status b.description = BookStatus.fromString st) := by
  refine ⟨?_, ?_, rfl, ?_, fun _ => rfl, ?_⟩
  · intro d hne hr
    simp [parse_status, hne, hr]
  · intro d hne hr hf
    simp [parse_status, hne, hr, hf]
  · intro d hr hf
    cases hne : d.isEmpty with
    | true => simp [parse_status, hne]
    | false => simp [parse_status, hne, hr, hf]
  · intro drive_books nm target st hst hfind b hb hbid
    simp only [mark, hfind] at hb
    obtain ⟨b0, _, rfl⟩ := List.mem_map.mp hb
    by_cases hid : b0.id = target.id
    · rw [if_pos hid]
      refine ⟨rfl, ?_⟩
      rcases hst with rfl | rfl | rfl
      · show parse_status (some (mark_description "reading")) = BookStatus.fromString "reading"
        decide
      · show parse_status (some (mark_description "finished")) = BookStatus.fromString "finished"
        decide
      · show parse_status (some (mark_description "new")) = BookStatus.fromString "new"
        decide
    · rw [if_neg hid] at hbid
      exact absurd hbid hid

/-- Witness for C9: marking `x.pdf` as reading rewrites its description to
the template, and a fresh parse of that description reports READING. -/
theorem C9_status_roundtrip_witness :
    (some "[reading] Updated via Bookshell" : Option String) =
      some (mark_description "reading")
    ∧ parse_status (some "[reading] Updated via Bookshell") =
      BookStatus.fromString "reading" :=
  C9_status_roundtrip.2.2.2.2.2
    [{ name := "x.pdf", id := "D1", description := some "old note" }] "x.pdf"
    { name := "x.pdf", id := "D1", description := some "old note" } "reading"
    (Or.inl rfl) (by decide)
    { name := "x.pdf", id := "D1", description := some "[reading] Updated via Bookshell" }
    (by decide) rfl

/-! ## The CLI `list` merge (`main.py` lines 29-64) -/

/-- One row of the CLI `list` merge dictionary. -/
structure ListEntry where
  onLocal : Bool
  onDrive : Bool
  size : Nat
  cat_local : Option String := none
  cat_drive : Option String := none
  status : String := "new"
deriving DecidableEq, Repr

/-- Status code parsed by the CLI merge (`main.py` lines 45-50):
`[reading]` wins over `[finished]`, default `"new"`. -/
def parse_status_code (description : Option String) : String :=
  match description with
  | none => "new"
  | some d =>
    if d.isEmpty then "new"
    else if containsSub d "[reading]" then "reading"
    else if containsSub d "[finished]" then "finished"
    else "new"

/-- The row inserted for a local file (`main.py` lines 30-38). -/
def cli_local_entry (f : LocalFile) : String × ListEntry :=
  (f.name,
   { onLocal := true
     onDrive := false
     size := f.size
     cat_local := f.category })

/-- The row inserted for a drive-only file (`main.py` lines 56-64). -/
def cli_drive_entry (b : DriveFile) : String × ListEntry :=
  (b.name,
   { onLocal := false
     onDrive := true
     size := b.size
     cat_drive := b.category
     status := parse_status_code b.description })

/-- The in-place update applied when a drive file's name is already present
(`main.py` lines 52-55): set `drive`, overwrite `cat_drive` and `status`. -/
def cli_drive_update (existing incoming : String × ListEntry) : String × ListEntry :=
  (existing.1,
   { existing.2 with
     onDrive := true
     cat_drive := incoming.2.cat_drive
     status := incoming.2.status })

/-- The CLI `list` merge dictionary (`main.py` lines 29-64). -/
def cli_list_merge (local_files : List LocalFile) (drive_books : List DriveFile) :
    List (String × ListEntry) :=
  let lib := (local_files.map cli_local_entry).foldl (pyUpsert Prod.fst (fun _ b => b)) []
  (drive_books.map cli_drive_entry).foldl (pyUpsert Prod.fst cli_drive_update) lib

theorem filter_map_key {α β : Type} (f : α → β) (key2 : β → String)
    (keyf : α → String) (hf : ∀ a, key2 (f a) = keyf a) (n : String) :
    ∀ l : List α,
      (l.map f).filter (fun x => key2 x = n) = (l.filter (fun a => keyf a = n)).map f
  | [] => rfl
  | a :: l => by
    rw [List.map_cons]
    by_cases h : keyf a = n
    · rw [List.filter_cons_of_pos (by simp [hf a, h]),
          List.filter_cons_of_pos (by simp [h]), List.map_cons,
          filter_map_key f key2 keyf hf n l]
    · rw [List.filter_cons_of_neg (by simp [hf a, h]),
          List.filter_cons_of_neg (by simp [h]),
          filter_map_key f key2 keyf hf n l]

/-- Each drive step of the CLI merge forces `drive`, `cat_drive` and
`status` to the incoming drive file's values. -/
theorem cli_mergeStep_fields (acc : Option (String × ListEntry)) (d : DriveFile) :
    ∃ q, mergeStep cli_drive_update acc (cli_drive_entry d) = some q
      ∧ q.2.onDrive = true ∧ q.2.cat_drive = d.category
      ∧ q.2.status = parse_status_code d.description := by
  cases acc with
  | none => exact ⟨cli_drive_entry d, rfl, rfl, rfl, rfl⟩
  | some x => exact ⟨cli_drive_update x (cli_drive_entry d), rfl, rfl, rfl, rfl⟩

theorem name_cli_replace :
    ∀ x b : String × ListEntry, x.1 = b.1 → ((fun (_ b : String × ListEntry) => b) x b).1 = x.1 :=
  fun _ _ h => h.symm

theorem name_cli_drive_update :
    ∀ x b : String × ListEntry, x.1 = b.1 → (cli_drive_update x b).1 = x.1 :=
  fun _ _ _ => rfl

/-- **C10.** When the remote listing contains several entries with the same
name, the merge collapses them silently with last-wins semantics: the
merged entry under that name carries the `remoteId` and `status` of the
last duplicate in remote listing order (and, in the CLI merge, also the
remote category of the last duplicate), and no duplicate is surfaced — the
merged catalog keeps at most one entry per name. -/
theorem C10_remote_duplicates_last_wins
    (local_books drive_books : List Book)
    (local_files : List LocalFile) (drive_files : List DriveFile) (n : String)
    (l2 : List Book) (rlast : Book)
    (hfil : drive_books.filter (fun b => b.name = n) = l2 ++ [rlast])
    (l3 : List DriveFile) (dlast : DriveFile)
    (hfil2 : drive_files.filter (fun b => b.name = n) = l3 ++ [dlast]) :
    (∃ e ∈ get_library local_books drive_books, e.name = n)
    ∧ (∀ e ∈ get_library local_books drive_books, e.name = n →
        e.drive_id = rlast.drive_id ∧ e.status = rlast.status)
    ∧ ((get_library local_books drive_books).map Book.name).Nodup
    ∧ (∃ p, lookupKey Prod.fst (cli_list_merge local_files drive_files) n = some p
        ∧ p.2.onDrive = true ∧ p.2.cat_drive = dlast.category
        ∧ p.2.status = parse_status_code dlast.description)
    ∧ ((cli_list_merge local_files drive_files).map Prod.fst).Nodup := by
  have hlook := lookup_mergedPre local_books drive_books n
  rw [hfil] at hlook
  obtain ⟨v, hv, hvd, hvs⟩ := foldl_mergeStep_last l2 rlast
    ((local_books.filter (fun b => b.name = n)).foldl (mergeStep (fun _ b => b)) none)
  rw [hv] at hlook
  have hvm : v ∈ get_library local_books drive_books :=
    (mem_get_library local_books drive_books).mpr (lookupKey_eq_some hlook).1
  have hvn : v.name = n := (lookupKey_eq_some hlook).2
  refine ⟨⟨v, hvm, hvn⟩, ?_, nodup_names_get_library local_books drive_books, ?_, ?_⟩
  · intro e he hen
    have h := lookup_get_library local_books drive_books he
    rw [hen, hlook] at h
    obtain rfl := (Option.some.inj h).symm
    exact ⟨hvd, hvs⟩
  · have hclook : lookupKey Prod.fst (cli_list_merge local_files drive_files) n =
        ((drive_files.map cli_drive_entry).filter (fun p => p.1 = n)).foldl
          (mergeStep cli_drive_update)
          (((local_files.map cli_local_entry).filter (fun p => p.1 = n)).foldl
            (mergeStep (fun _ b => b))
            (lookupKey Prod.fst ([] : List (String × ListEntry)) n)) := by
      simp only [cli_list_merge]
      rw [lookupKey_foldl name_cli_drive_update, lookupKey_foldl name_cli_replace]
    rw [filter_map_key cli_drive_entry Prod.fst DriveFile.name (fun _ => rfl) n,
        hfil2, List.map_append] at hclook
    obtain ⟨q, hq, hqd, hqc, hqs⟩ := cli_mergeStep_fields
      ((List.map cli_drive_entry l3).foldl (mergeStep cli_drive_update)
        (((local_files.map cli_local_entry).filter (fun p => p.1 = n)).foldl
          (mergeStep (fun _ b => b))
          (lookupKey Prod.fst ([] : List (String × ListEntry)) n))) dlast
    rw [List.foldl_append] at hclook
    simp only [List.map_cons, List.map_nil, List.foldl_cons, List.foldl_nil] at hclook
    exact ⟨q, hclook.trans hq, hqd, hqc, hqs⟩
  · simp only [cli_list_merge]
    exact nodupKeys_foldl name_cli_drive_update _ _
      (nodupKeys_foldl name_cli_replace _ _ List.nodup_nil)

/-- Witness for C10: two remote duplicates of `n.pdf`; the merged catalog
has an entry for the name, and the CLI merge carries the second duplicate's
category and status. -/
theorem C10_remote_duplicates_last_wins_witness :
    (∃ e ∈ get_library []
        [{ name := "n.pdf", drive_id := some "OLD", status := BookStatus.reading },
         { name := "n.pdf", drive_id := some "NEWER", status := BookStatus.finished }],
      e.name = "n.pdf")
    ∧ (∃ p, lookupKey Prod.fst (cli_list_merge []
        [{ name := "n.pdf", id := "OLD", category := some "a", description := some "[reading] x" },
         { name := "n.pdf", id := "NEW2", category := some "b", description := some "[finished] y" }]) "n.pdf" = some p
        ∧ p.2.onDrive = true
        ∧ p.2.cat_drive = ({ name := "n.pdf", id := "NEW2", category := some "b", description := some "[finished] y" : DriveFile }).category
        ∧ p.2.status = parse_status_code ({ name := "n.pdf", id := "NEW2", category := some "b", description := some "[finished] y" : DriveFile }).description) := by
  have h := C10_remote_duplicates_last_wins []
    [{ name := "n.pdf", drive_id := some "OLD", status := BookStatus.reading },
     { name := "n.pdf", drive_id := some "NEWER", status := BookStatus.finished }]
    []
    [{ name := "n.pdf", id := "OLD", category := some "a", description := some "[reading] x" },
     { name := "n.pdf", id := "NEW2", category := some "b", description := some "[finished] y" }]
    "n.pdf"
    [{ name := "n.pdf", drive_id := some "OLD", status := BookStatus.reading }]
    { name := "n.pdf", drive_id := some "NEWER", status := BookStatus.finished }
    (by decide)
    [{ name := "n.pdf", id := "OLD", category := some "a", description := some "[reading] x" }]
    { name := "n.pdf", id := "NEW2", category := some "b", description := some "[finished] y" }
    (by decide)
  exact ⟨h.1, h.2.2.2.1⟩

end Bookshell
